import Mathlib

/-!
Verification development for the CanvasAiPlanner repository.

The definitions in this file are a shallow embedding of the JavaScript
source: timestamps are rationals counting milliseconds since the epoch
(so the JS expression `(due - now) / (1000*60*60*24)` becomes exact
rational arithmetic), JS `Map` objects become association lists with
insert-or-replace semantics, optional / possibly-`undefined` fields
become `Option`, JS string truthiness (`''` is falsy) is modeled
explicitly, and the fallible AI completion call becomes a function
returning `Except`.
-/

set_option autoImplicit false

namespace CanvasAiPlanner

/-! ## Urgency classifier -/

/-- The four urgency tiers.  In the JS source these are the strings
`'Overdue'`, `'Urgent'`, `'This Week'`, `'Upcoming'`. -/
inductive Urgency where
  | overdue
  | urgent
  | thisWeek
  | upcoming
  deriving DecidableEq, Repr

/-- Milliseconds per day: the JS divisor `1000 * 60 * 60 * 24`. -/
def msPerDay : ℚ := 1000 * 60 * 60 * 24

/-- The JS local `daysUntilDue = (due - now) / (1000 * 60 * 60 * 24)`
(both `calculateUrgency` in the task-sync job and
`calculateUrgencyFromDate` in `notion.js` compute exactly this). -/
def daysUntilDue (due now : ℚ) : ℚ :=
  (due - now) / msPerDay

/-- `calculateUrgency(dueDate)` from the task-sync job; the method
`calculateUrgencyFromDate(dueDate)` in `notion.js` has the identical
body.  The implicit `new Date()` is passed explicitly as `now`. -/
def calculateUrgency (dueDate : Option ℚ) (now : ℚ) : Urgency :=
  match dueDate with
  | none => Urgency.upcoming
  | some due =>
    if daysUntilDue due now < 0 then Urgency.overdue
    else if daysUntilDue due now ≤ 2 then Urgency.urgent
    else if daysUntilDue due now ≤ 7 then Urgency.thisWeek
    else Urgency.upcoming

/-! ## JS helpers: truthiness and `Map` semantics -/

/-- JS `a || b` where `a` is a possibly-absent string: `undefined`,
`null` and `''` are falsy and select the default. -/
def jsOrStr (o : Option String) (d : String) : String :=
  match o with
  | some s => if s = "" then d else s
  | none => d

/-- JS truthiness of a possibly-absent string. -/
def jsTruthy (o : Option String) : Bool :=
  match o with
  | some s => s ≠ ""
  | none => false

/-- `String.prototype.toLowerCase()`, character by character (the
selector strings involved are ASCII, where JS and `Char.toLower`
agree). -/
def jsToLower (s : String) : String :=
  String.mk (s.data.map Char.toLower)

/-- JS `Map.prototype.set`: replace the value at an existing key in
place, otherwise append the binding (insertion order preserved). -/
def jsMapSet {K V : Type} [DecidableEq K] (m : List (K × V)) (k : K) (v : V) :
    List (K × V) :=
  match m with
  | [] => [(k, v)]
  | (k', v') :: rest =>
    if k' = k then (k, v) :: rest else (k', v') :: jsMapSet rest k v

/-- JS `Map.prototype.get`. -/
def jsMapGet {K V : Type} [DecidableEq K] (m : List (K × V)) (k : K) : Option V :=
  match m with
  | [] => none
  | (k', v) :: rest => if k' = k then some v else jsMapGet rest k

/-- JS `new Map(pairs)`: insert the pairs left to right. -/
def jsMapOf {K V : Type} [DecidableEq K] (l : List (K × V)) : List (K × V) :=
  l.foldl (fun m p => jsMapSet m p.1 p.2) []

/-! ## Data model -/

/-- A Canvas assignment as observed by the jobs.  `course_name` and
`course_code` are attached by `getAllAssignments` /
`getUpcomingAssignments`; `due_at`, `points_possible`, `description`
and `html_url` may be absent. -/
structure Assignment where
  id : Nat
  name : String := ""
  course_name : Option String := none
  course_code : Option String := none
  due_at : Option ℚ := none
  points_possible : Option ℚ := none
  description : Option String := none
  html_url : Option String := none
  deriving DecidableEq, Repr

/-- A Notion course record as fetched from the Canvas `/courses`
endpoint (only the fields the jobs read). -/
structure Course where
  id : Nat
  name : Option String := none
  course_code : Option String := none
  deriving DecidableEq, Repr

/-- A Notion task-database page, projected to the properties the jobs
read and write: `Name`, `Course`, `AI Overview`, `Urgency`,
`Canvas URL`, `Due Date`, `Done`.  A missing checkbox reads as
`false`. -/
structure TaskRecord where
  pageId : Nat
  name : String := ""
  course : Option String := none
  aiOverview : Option String := none
  urgency : Option Urgency := none
  canvasUrl : Option String := none
  dueDate : Option ℚ := none
  done : Bool := false
  deriving DecidableEq, Repr

/-- The `taskData` object handed to `createTaskInDatabase` /
`updateTaskInDatabase`; every field may be absent (`undefined`). -/
structure TaskData where
  name : Option String := none
  course : Option String := none
  aiOverview : Option String := none
  urgency : Option Urgency := none
  canvasUrl : Option String := none
  dueDate : Option ℚ := none
  done : Option Bool := none
  deriving DecidableEq, Repr

/-! ## Notion client operations (`notion.js`) -/

/-- `updateTaskInDatabase(pageId, taskData)`: build a partial
`properties` object and merge it into the page.  String-valued fields
are guarded by JS truthiness (`if (taskData.name)` etc., so `''` is
skipped); `urgency` is one of four non-empty labels, hence always
truthy when present; `dueDate` is a non-empty ISO string when present;
`done` is guarded by `!== undefined`, so a provided `false` IS
written. -/
def updateTaskInDatabase (t : TaskRecord) (d : TaskData) : TaskRecord :=
  { pageId := t.pageId
    name := match d.name with
      | some s => if s = "" then t.name else s
      | none => t.name
    course := match d.course with
      | some s => if s = "" then t.course else some s
      | none => t.course
    aiOverview := match d.aiOverview with
      | some s => if s = "" then t.aiOverview else some s
      | none => t.aiOverview
    urgency := match d.urgency with
      | some u => some u
      | none => t.urgency
    canvasUrl := match d.canvasUrl with
      | some s => if s = "" then t.canvasUrl else some s
      | none => t.canvasUrl
    dueDate := match d.dueDate with
      | some q => some q
      | none => t.dueDate
    done := match d.done with
      | some b => b
      | none => t.done }

/-- `createTaskInDatabase(taskData)`: the `Name` title is always set;
the optional properties follow the same truthiness guards as the
update; an absent `Done` checkbox reads back as `false`. -/
def createTaskInDatabase (d : TaskData) (pageId : Nat) : TaskRecord :=
  { pageId := pageId
    name := d.name.getD ""
    course := match d.course with
      | some s => if s = "" then none else some s
      | none => none
    aiOverview := match d.aiOverview with
      | some s => if s = "" then none else some s
      | none => none
    urgency := d.urgency
    canvasUrl := match d.canvasUrl with
      | some s => if s = "" then none else some s
      | none => none
    dueDate := d.dueDate
    done := d.done.getD false }

/-! ## Join-key extraction (`runTaskSync`, lines 29-40) -/

/-- The greedy `\d+` at the head of a character list. -/
def leadingDigits : List Char → List Char
  | [] => []
  | c :: cs => if c.isDigit then c :: leadingDigits cs else []

/-- Try to match the regex `assignments\/(\d+)` at the head of the
list: the literal `assignments/` followed by at least one digit;
return the (greedy) digit run. -/
def matchAssignmentsAt (cs : List Char) : Option (List Char) :=
  if cs.take 12 = "assignments/".data then
    let ds := leadingDigits (cs.drop 12)
    if ds = [] then none else some ds
  else none

/-- Left-to-right regex scan: first position where
`assignments\/(\d+)` matches wins. -/
def scanForAssignmentId : List Char → Option (List Char)
  | [] => none
  | c :: cs =>
    match matchAssignmentsAt (c :: cs) with
    | some ds => some ds
    | none => scanForAssignmentId cs

/-- `canvasUrl.match(/assignments\/(\d+)/)`, returning capture group 1. -/
def extractAssignmentId (url : String) : Option String :=
  (scanForAssignmentId url.data).map (fun ds => String.mk ds)

/-- The join key of an existing Notion record, per `runTaskSync`:
`task.properties?.['Canvas URL']?.url` must be truthy and its
`assignments/<digits>` capture must succeed. -/
def recordJoinKey (t : TaskRecord) : Option String :=
  match t.canvasUrl with
  | none => none
  | some url => if url = "" then none else extractAssignmentId url

/-- The `existingTasksMap` built at the start of `runTaskSync`:
records whose URL is absent or does not match are skipped. -/
def buildExistingTasksMap (tasks : List TaskRecord) : List (String × TaskRecord) :=
  tasks.foldl
    (fun m task =>
      match recordJoinKey task with
      | some k => jsMapSet m k task
      | none => m)
    []

/-! ## AI overview generation (`generateTaskOverview`) -/

/-- The completion backend: `generateCompletion(systemPrompt,
userPrompt)`, which either returns text or throws. -/
def AiFn : Type := String → String → Except String String

/-- The global replace `description.replace(/<[^>]*>/g, '')`: drop
each maximal `<...>` segment (a `<` with no later `>` does not
match and is kept). -/
def stripHtml (s : List Char) : List Char :=
  match s with
  | [] => []
  | c :: cs =>
    if c = '<' then
      match h : cs.dropWhile (fun x => x ≠ '>') with
      | [] => c :: stripHtml cs
      | _ :: rest => stripHtml rest
    else c :: stripHtml cs
termination_by s.length
decreasing_by
  · simp only [List.length_cons]
    omega
  · simp only [List.length_cons]
    have h1 : (cs.dropWhile (fun x => x ≠ '>')).length ≤ cs.length :=
      (List.dropWhile_sublist _).length_le
    rw [h] at h1
    simp only [List.length_cons] at h1
    omega
  · simp only [List.length_cons]
    omega

/-- The cleaned description used in the user prompt:
`assignment.description ? assignment.description.replace(/<[^>]*>/g,
'').substring(0, 500) : 'No description provided'` (an empty
description string is falsy). -/
def cleanedDescription (a : Assignment) : String :=
  match a.description with
  | some d => if d = "" then "No description provided"
              else String.mk ((stripHtml d.data).take 500)
  | none => "No description provided"

/-- The fixed system prompt of `generateTaskOverview`. -/
def overviewSystemPrompt : String :=
  "You are a helpful academic assistant. Create brief, actionable overviews of assignments for students."

/-- Stand-in for the locale-dependent `toLocaleDateString()` rendering
of a due date (its exact text never influences control flow). -/
def dateDisplay (q : ℚ) : String :=
  toString q

/-- The user prompt of `generateTaskOverview` (template literal with
the assignment fields interpolated; `points_possible || 'N/A'` treats
the number 0 as falsy). -/
def overviewUserPrompt (a : Assignment) : String :=
  "Create a concise overview (2-3 sentences) for this assignment:\n\nAssignment: "
    ++ a.name
    ++ "\nCourse: " ++ jsOrStr a.course_name "Unknown"
    ++ "\nDue Date: "
    ++ (match a.due_at with
        | some d => dateDisplay d
        | none => "Not specified")
    ++ "\nPoints: "
    ++ (match a.points_possible with
        | some p => if p = 0 then "N/A" else toString p
        | none => "N/A")
    ++ "\nDescription: " ++ cleanedDescription a
    ++ "\n\nFocus on: what the task is, key requirements, and what the student should prioritize."

/-- The deterministic fallback overview produced in the `catch` of
`generateTaskOverview`. -/
def fallbackOverview (a : Assignment) : String :=
  "Complete " ++ a.name ++ " for " ++ jsOrStr a.course_name "course" ++ "."

/-- `generateTaskOverview(ai, assignment)`: call the backend; if the
call throws, log and substitute the fallback string. -/
def generateTaskOverview (ai : AiFn) (a : Assignment) : String :=
  match ai overviewSystemPrompt (overviewUserPrompt a) with
  | Except.ok overview => overview
  | Except.error _ => fallbackOverview a

/-! ## Synchronizer (`runTaskSync`) -/

/-- The stored overview text read back from a record:
`existingTask.properties?.['AI Overview']?.rich_text?.[0]?.text?.content || ''`. -/
def storedOverview (t : TaskRecord) : String :=
  jsOrStr t.aiOverview ""

/-- `shouldRegenerateOverview(existingTask)`: regenerate when the
stored overview is shorter than 20 characters. -/
def shouldRegenerateOverview (t : TaskRecord) : Bool :=
  (storedOverview t).length < 20

/-- The overview selection of `runTaskSync` (lines 56-65): regenerate
for a new task or one flagged by `shouldRegenerateOverview`, else
reuse the stored text. -/
def chooseOverview (ai : AiFn) (a : Assignment) (existingTask : Option TaskRecord) :
    String :=
  match existingTask with
  | none => generateTaskOverview ai a
  | some t =>
    if shouldRegenerateOverview t then generateTaskOverview ai a
    else storedOverview t

/-- The `taskData` object assembled for each assignment (note
`done: false` also on the update path). -/
def taskDataFor (a : Assignment) (urgency : Urgency) (aiOverview : String) : TaskData :=
  { name := some a.name
    course := some (jsOrStr a.course_name (jsOrStr a.course_code "Unknown Course"))
    aiOverview := some aiOverview
    urgency := some urgency
    canvasUrl := a.html_url
    dueDate := a.due_at
    done := some false }

/-- Update every store record carrying the given page id (Notion page
ids are unique; the model keeps the store as a list). -/
def updateById (db : List TaskRecord) (pid : Nat) (d : TaskData) : List TaskRecord :=
  db.map (fun t => if t.pageId = pid then updateTaskInDatabase t d else t)

/-- The synchronizer's loop state: the task store contents, the next
fresh page id the store will assign, and the two counters. -/
structure SyncState where
  db : List TaskRecord
  nextPageId : Nat
  newCount : Nat
  updatedCount : Nat
  deriving Repr

/-- One iteration of the per-assignment loop of `runTaskSync`:
classify, choose the overview, then update the matched record in
place or create a fresh one. -/
def syncStep (m : List (String × TaskRecord)) (ai : AiFn) (now : ℚ)
    (s : SyncState) (a : Assignment) : SyncState :=
  let urgency := calculateUrgency a.due_at now
  let existingTask := jsMapGet m (toString a.id)
  let aiOverview := chooseOverview ai a existingTask
  let d := taskDataFor a urgency aiOverview
  match existingTask with
  | some t =>
    { s with db := updateById s.db t.pageId d, updatedCount := s.updatedCount + 1 }
  | none =>
    { s with
        db := s.db ++ [createTaskInDatabase d s.nextPageId]
        nextPageId := s.nextPageId + 1
        newCount := s.newCount + 1 }

/-- The urgency-refresh pass of `updateAllTasksUrgency` on one record:
skip records without a due date or already done; recompute the tier
and write it only when it differs from the stored one. -/
def urgencyRefresh (now : ℚ) (t : TaskRecord) : TaskRecord :=
  match t.dueDate with
  | none => t
  | some due =>
    if t.done then t
    else
      let newUrgency := calculateUrgency (some due) now
      if some newUrgency ≠ t.urgency then
        updateTaskInDatabase t { urgency := some newUrgency }
      else t

/-- `updateAllTasksUrgency()`: a second pass over all store records. -/
def updateAllTasksUrgency (now : ℚ) (db : List TaskRecord) : List TaskRecord :=
  db.map (urgencyRefresh now)

/-- The result of a sync run: the final store contents and the two
reported counters. -/
structure SyncReport where
  db : List TaskRecord
  newCount : Nat
  updatedCount : Nat
  deriving Repr

/-- `runTaskSync`: build the id map from the existing records, run the
per-assignment loop (creates draw fresh page ids from `fresh`), then
refresh urgency over the whole store. -/
def runTaskSync (assignments : List Assignment) (existingTasks : List TaskRecord)
    (ai : AiFn) (now : ℚ) (fresh : Nat) : SyncReport :=
  let m := buildExistingTasksMap existingTasks
  let s := assignments.foldl (syncStep m ai now)
    { db := existingTasks, nextPageId := fresh, newCount := 0, updatedCount := 0 }
  { db := updateAllTasksUrgency now s.db
    newCount := s.newCount
    updatedCount := s.updatedCount }

/-! ## Change detector (`detectChanges`, daily-update job) -/

/-- The `new`/`updated` result object of `detectChanges`. -/
structure Changes where
  new : List Assignment
  updated : List Assignment
  deriving DecidableEq, Repr

/-- The update test of `detectChanges`: `prev.due_at !==
assignment.due_at || prev.points_possible !== assignment.points_possible`
(strict equality; two absent fields are equal). -/
def assignmentChanged (prev a : Assignment) : Bool :=
  decide (prev.due_at ≠ a.due_at) || decide (prev.points_possible ≠ a.points_possible)

/-- The body of the `for (const [id, assignment] of currentMap)` loop
of `detectChanges`: push onto `new` when the id is absent from the
previous map, onto `updated` when it is present with a changed field
pair, else keep the accumulators. -/
def detectStep (previousMap : List (Nat × Assignment))
    (acc : List Assignment × List Assignment) (p : Nat × Assignment) :
    List Assignment × List Assignment :=
  match jsMapGet previousMap p.1 with
  | none => (acc.1 ++ [p.2], acc.2)
  | some prev =>
    if assignmentChanged prev p.2 then (acc.1, acc.2 ++ [p.2]) else acc

/-- `detectChanges(previous, current)`: build id maps of both
snapshots, then iterate the entries of the current map pushing to the
`new` or `updated` arrays. -/
def detectChanges (previous current : List Assignment) : Changes :=
  let previousMap := jsMapOf (previous.map (fun a => (a.id, a)))
  let currentMap := jsMapOf (current.map (fun a => (a.id, a)))
  let res := currentMap.foldl (detectStep previousMap) ([], [])
  { new := res.1, updated := res.2 }

/-- The `new`-branch test of `detectStep`, as a filter predicate. -/
def isNewEntry (previousMap : List (Nat × Assignment)) (p : Nat × Assignment) : Bool :=
  (jsMapGet previousMap p.1).isNone

/-- The `updated`-branch test of `detectStep`, as a filter predicate. -/
def isUpdatedEntry (previousMap : List (Nat × Assignment)) (p : Nat × Assignment) : Bool :=
  match jsMapGet previousMap p.1 with
  | some prev => assignmentChanged prev p.2
  | none => false

/-! ## Canvas client (`canvas.js`, `getAllAssignments`) -/

/-- The spread `{...assignment, course_name: course.name, course_code:
course.course_code}`. -/
def withCourse (c : Course) (a : Assignment) : Assignment :=
  { a with course_name := c.name, course_code := c.course_code }

/-- The numeric sort key `new Date(a.due_at)` (elements reaching the
sort have already passed the due-date filter). -/
def dueKey (a : Assignment) : ℚ :=
  a.due_at.getD 0

/-- Insertion step of the model of `Array.prototype.sort` with the
comparator `new Date(a.due_at) - new Date(b.due_at)`. -/
def insertByDue (a : Assignment) : List Assignment → List Assignment
  | [] => [a]
  | b :: bs => if dueKey a ≤ dueKey b then a :: b :: bs else b :: insertByDue a bs

/-- Model of the ascending sort by due date. -/
def sortByDue (l : List Assignment) : List Assignment :=
  l.foldr insertByDue []

/-- `getAllAssignments()`, after the per-course fetches: attach the
course fields, concatenate in course order, keep only assignments
with a (truthy) due date, and sort ascending by due date. -/
def getAllAssignments (data : List (Course × List Assignment)) : List Assignment :=
  let all := data.foldl (fun acc p => acc ++ p.2.map (withCourse p.1)) []
  sortByDue (all.filter (fun a => a.due_at.isSome))

/-! ## Completion backend selection (`provider.js`) -/

/-- The three completion backends of `AIProvider`. -/
inductive AIBackend where
  | openai
  | anthropic
  | ollama
  deriving DecidableEq, Repr

/-- The selector string: `process.env.AI_PROVIDER || 'openai'`
(absent or empty defaults to `'openai'`). -/
def providerName (cfg : Option String) : String :=
  jsOrStr cfg "openai"

/-- The `AIProvider` constructor: `switch (provider.toLowerCase())`
selecting a backend, `default:` throwing immediately. -/
def mkAIProvider (cfg : Option String) : Except String AIBackend :=
  if jsToLower (providerName cfg) = "openai" then Except.ok AIBackend.openai
  else if jsToLower (providerName cfg) = "anthropic" then Except.ok AIBackend.anthropic
  else if jsToLower (providerName cfg) = "ollama" then Except.ok AIBackend.ollama
  else Except.error ("Unknown AI provider: " ++ providerName cfg)

/-! ## Predicates used by the synchronizer invariants -/

/-- URL well-formedness: the canonical URL is present, truthy, and
embeds the assignment's own id as join key (true of Canvas
`html_url`s, which end in `assignments/<id>`). -/
def urlEmbedsId (a : Assignment) : Prop :=
  ∃ url, a.html_url = some url ∧ url ≠ "" ∧
    extractAssignmentId url = some (toString a.id)

/-- Some record of the store holds join key `k`. -/
def hasKeyRecord (db : List TaskRecord) (k : String) : Prop :=
  ∃ t ∈ db, recordJoinKey t = some k

/-- Invariant of the sync loop relative to the initially fetched store
`db0`: page ids are duplicate-free and below the fresh-id counter, any
store record sharing a page id with a record of the initial map holds
that binding's join key, and every initial record's page id is still
present. -/
def SyncInv (db0 : List TaskRecord) (s : SyncState) : Prop :=
  (s.db.map (fun t => t.pageId)).Nodup ∧
  (∀ t ∈ s.db, t.pageId < s.nextPageId) ∧
  (∀ k r, jsMapGet (buildExistingTasksMap db0) k = some r →
    ∀ t ∈ s.db, t.pageId = r.pageId → recordJoinKey t = some k) ∧
  (∀ r ∈ db0, ∃ t ∈ s.db, t.pageId = r.pageId)

/-! ## Concrete fixtures used by closed theorems and witnesses -/

/-- A concrete Canvas assignment whose canonical URL embeds its id. -/
def a77 : Assignment :=
  { id := 77
    name := "Essay"
    course_name := some "History"
    due_at := some 86400000
    points_possible := some 10
    html_url := some "https://canvas.example.com/courses/5/assignments/77" }

/-- A completion backend whose every call throws. -/
def failAi : AiFn := fun _ _ => Except.error "down"

/-- An existing Notion record for `a77` already checked off
(`Done = true`), with a stored overview long enough that no
regeneration is triggered. -/
def doneRec : TaskRecord :=
  { pageId := 1
    name := "Essay"
    aiOverview := some "A long enough stored overview."
    canvasUrl := some "https://canvas.example.com/courses/5/assignments/77"
    dueDate := some 86400000
    done := true }

/-- `a77` with a changed due date (an upstream modification). -/
def a77u : Assignment :=
  { a77 with due_at := some 5 }

/-- A second assignment, absent from the previous snapshot. -/
def a78 : Assignment :=
  { a77 with id := 78
             html_url := some "https://canvas.example.com/courses/5/assignments/78" }

/-- A record whose stored overview has exactly 19 characters. -/
def rec19 : TaskRecord :=
  { pageId := 2, aiOverview := some "Short overview text" }

/-- A record whose stored overview has exactly 20 characters. -/
def rec20 : TaskRecord :=
  { pageId := 3, aiOverview := some "Short overview text." }

/-- A concrete course. -/
def c1 : Course := { id := 1, name := some "H", course_code := some "H101" }

/-- An assignment without a due date (filtered out by
`getAllAssignments`). -/
def aNoDue : Assignment := { a77 with id := 9, due_at := none }

/-- An assignment due before `a77`. -/
def aEarly : Assignment := { a77 with id := 3, due_at := some 7 }

/-- A concrete course/assignment fetch result. -/
def sampleCourseData : List (Course × List Assignment) := [(c1, [a77, aNoDue, aEarly])]

end CanvasAiPlanner

namespace CanvasAiPlanner

/-! ## Theorems -/

/-- C1 helper: `daysUntilDue` is negative exactly when the due date is
strictly in the past. -/
theorem daysUntilDue_neg_iff (due now : ℚ) :
    daysUntilDue due now < 0 ↔ due < now := by
  have hm : (0 : ℚ) < msPerDay := by norm_num [msPerDay]
  unfold daysUntilDue
  rw [div_lt_iff₀ hm, zero_mul]
  constructor <;> intro h <;> linarith

/-- C1: the urgency classifier realizes the spec's four-way partition:
no due timestamp yields Upcoming; a due timestamp strictly in the past
yields Overdue; `0 ≤ daysUntilDue ≤ 2` (real-valued day fractions,
boundary 2 included) yields Urgent; `2 < daysUntilDue ≤ 7` yields
ThisWeek; `daysUntilDue > 7` yields Upcoming. -/
theorem calculateUrgency_partition (due now : ℚ) :
    calculateUrgency none now = Urgency.upcoming ∧
    (due < now → calculateUrgency (some due) now = Urgency.overdue) ∧
    (0 ≤ daysUntilDue due now → daysUntilDue due now ≤ 2 →
      calculateUrgency (some due) now = Urgency.urgent) ∧
    (2 < daysUntilDue due now → daysUntilDue due now ≤ 7 →
      calculateUrgency (some due) now = Urgency.thisWeek) ∧
    (7 < daysUntilDue due now → calculateUrgency (some due) now = Urgency.upcoming) := by
  refine ⟨rfl, ?_, ?_, ?_, ?_⟩
  · intro h
    have hd : daysUntilDue due now < 0 := (daysUntilDue_neg_iff due now).mpr h
    simp only [calculateUrgency, if_pos hd]
  · intro h0 h2
    have hd : ¬ daysUntilDue due now < 0 := not_lt.mpr h0
    simp only [calculateUrgency, if_neg hd, if_pos h2]
  · intro h2 h7
    have hd : ¬ daysUntilDue due now < 0 := by linarith
    have hd2 : ¬ daysUntilDue due now ≤ 2 := not_le.mpr h2
    simp only [calculateUrgency, if_neg hd, if_neg hd2, if_pos h7]
  · intro h7
    have hd : ¬ daysUntilDue due now < 0 := by linarith
    have hd2 : ¬ daysUntilDue due now ≤ 2 := by linarith
    have hd7 : ¬ daysUntilDue due now ≤ 7 := not_le.mpr h7
    simp only [calculateUrgency, if_neg hd, if_neg hd2, if_neg hd7]

/-- C1 witness: the partition theorem applied at concrete instants
(one millisecond overdue; exactly the 2.0-day boundary; 3 days out;
8 days out). -/
theorem calculateUrgency_partition_w :
    ((0 : ℚ) < 1 ∧ calculateUrgency (some 0) 1 = Urgency.overdue) ∧
    (0 ≤ daysUntilDue 172800000 0 ∧ daysUntilDue 172800000 0 ≤ 2 ∧
      calculateUrgency (some 172800000) 0 = Urgency.urgent) ∧
    (2 < daysUntilDue 259200000 0 ∧ daysUntilDue 259200000 0 ≤ 7 ∧
      calculateUrgency (some 259200000) 0 = Urgency.thisWeek) ∧
    (7 < daysUntilDue 691200000 0 ∧
      calculateUrgency (some 691200000) 0 = Urgency.upcoming) :=
  ⟨⟨by norm_num, (calculateUrgency_partition 0 1).2.1 (by norm_num)⟩,
   ⟨by norm_num [daysUntilDue, msPerDay], by norm_num [daysUntilDue, msPerDay],
    (calculateUrgency_partition 172800000 0).2.2.1
      (by norm_num [daysUntilDue, msPerDay]) (by norm_num [daysUntilDue, msPerDay])⟩,
   ⟨by norm_num [daysUntilDue, msPerDay], by norm_num [daysUntilDue, msPerDay],
    (calculateUrgency_partition 259200000 0).2.2.2.1
      (by norm_num [daysUntilDue, msPerDay]) (by norm_num [daysUntilDue, msPerDay])⟩,
   ⟨by norm_num [daysUntilDue, msPerDay],
    (calculateUrgency_partition 691200000 0).2.2.2.2
      (by norm_num [daysUntilDue, msPerDay])⟩⟩

end CanvasAiPlanner

namespace CanvasAiPlanner

/-! ### C6: overview regeneration policy -/

/-- C6: in the synchronizer's per-assignment step the AI overview is
regenerated iff there is no matching existing record or the stored
overview is shorter than 20 characters; at length 19 it is
regenerated, at length 20 the stored text is reused verbatim. -/
theorem overview_regeneration_policy (ai : AiFn) (a : Assignment) (t : TaskRecord) :
    chooseOverview ai a none = generateTaskOverview ai a ∧
    ((storedOverview t).length < 20 →
      chooseOverview ai a (some t) = generateTaskOverview ai a) ∧
    (20 ≤ (storedOverview t).length →
      chooseOverview ai a (some t) = storedOverview t) ∧
    ((storedOverview t).length = 19 →
      chooseOverview ai a (some t) = generateTaskOverview ai a) ∧
    ((storedOverview t).length = 20 →
      chooseOverview ai a (some t) = storedOverview t) := by
  refine ⟨rfl, ?_, ?_, ?_, ?_⟩
  · intro h
    simp [chooseOverview, shouldRegenerateOverview, h]
  · intro h
    have h' : ¬ (storedOverview t).length < 20 := not_lt.mpr h
    simp [chooseOverview, shouldRegenerateOverview, h']
  · intro h
    have h' : (storedOverview t).length < 20 := by omega
    simp [chooseOverview, shouldRegenerateOverview, h']
  · intro h
    have h' : ¬ (storedOverview t).length < 20 := by omega
    simp [chooseOverview, shouldRegenerateOverview, h']

/-- C6 witness: the policy applied to the two boundary fixtures. -/
theorem overview_regeneration_policy_w :
    ((storedOverview rec19).length = 19 ∧
      chooseOverview failAi a77 (some rec19) = generateTaskOverview failAi a77) ∧
    ((storedOverview rec20).length = 20 ∧
      chooseOverview failAi a77 (some rec20) = storedOverview rec20) :=
  ⟨⟨by decide, (overview_regeneration_policy failAi a77 rec19).2.2.2.1 (by decide)⟩,
   ⟨by decide, (overview_regeneration_policy failAi a77 rec20).2.2.2.2 (by decide)⟩⟩

end CanvasAiPlanner

namespace CanvasAiPlanner

/-! ### C7: overview-generation failure tolerance -/

/-- Helper: each iteration of the per-assignment loop increments
exactly one of the two counters. -/
theorem syncStep_counts (m : List (String × TaskRecord)) (ai : AiFn) (now : ℚ)
    (s : SyncState) (a : Assignment) :
    (syncStep m ai now s a).newCount + (syncStep m ai now s a).updatedCount =
      s.newCount + s.updatedCount + 1 := by
  rcases h : jsMapGet m (toString a.id) with _ | t <;> simp [syncStep, h] <;> omega

/-- Helper: the loop processes every assignment, adding one per item
to the combined counters. -/
theorem foldl_syncStep_counts (m : List (String × TaskRecord)) (ai : AiFn) (now : ℚ)
    (as : List Assignment) (s : SyncState) :
    ((as.foldl (syncStep m ai now) s).newCount +
      (as.foldl (syncStep m ai now) s).updatedCount) =
      s.newCount + s.updatedCount + as.length := by
  induction as generalizing s with
  | nil => simp
  | cons a as ih =>
    simp only [List.foldl_cons, List.length_cons]
    rw [ih]
    have := syncStep_counts m ai now s a
    omega

/-- C7: when the completion backend throws, `generateTaskOverview`
returns the deterministic fallback built from the assignment name and
the course label (`'course'` when no course name is present), and the
sync run still processes every assignment (each one is counted as
created or updated; nothing aborts). -/
theorem overview_fallback_on_ai_error (e : String) (a : Assignment)
    (assignments : List Assignment) (db : List TaskRecord) (now : ℚ) (fresh : Nat) :
    generateTaskOverview (fun _ _ => Except.error e) a =
      "Complete " ++ a.name ++ " for " ++ jsOrStr a.course_name "course" ++ "." ∧
    (runTaskSync assignments db (fun _ _ => Except.error e) now fresh).newCount +
      (runTaskSync assignments db (fun _ _ => Except.error e) now fresh).updatedCount =
      assignments.length := by
  constructor
  · rfl
  · have h := foldl_syncStep_counts (buildExistingTasksMap db)
      (fun _ _ => Except.error e) now assignments
      { db := db, nextPageId := fresh, newCount := 0, updatedCount := 0 }
    simpa [runTaskSync] using h

/-! ### C9: completion-backend selection -/

/-- C9 counterexample: the empty selector string names none of the
three backends, yet construction succeeds (it falls back to the
`'openai'` default instead of raising). -/
theorem mkAIProvider_empty_selector_ok :
    mkAIProvider (some "") = Except.ok AIBackend.openai ∧
    "" ≠ "openai" ∧ "" ≠ "anthropic" ∧ "" ≠ "ollama" :=
  ⟨rfl, by decide, by decide, by decide⟩

/-- C9 (amended): after the constructor's defaulting (absent or empty
selector becomes `'openai'`) and lowercasing, a selector naming one of
the three backends yields that backend, and any other selector makes
construction raise immediately. -/
theorem mkAIProvider_selection (cfg : Option String) :
    (jsToLower (providerName cfg) = "openai" →
      mkAIProvider cfg = Except.ok AIBackend.openai) ∧
    (jsToLower (providerName cfg) = "anthropic" →
      mkAIProvider cfg = Except.ok AIBackend.anthropic) ∧
    (jsToLower (providerName cfg) = "ollama" →
      mkAIProvider cfg = Except.ok AIBackend.ollama) ∧
    (jsToLower (providerName cfg) ≠ "openai" →
      jsToLower (providerName cfg) ≠ "anthropic" →
      jsToLower (providerName cfg) ≠ "ollama" →
      mkAIProvider cfg = Except.error ("Unknown AI provider: " ++ providerName cfg)) := by
  refine ⟨?_, ?_, ?_, ?_⟩ <;> intro h <;> try simp [mkAIProvider, h]
  intro h2 h3
  simp [mkAIProvider, h, h2, h3]

/-- C9 witness: the selection theorem applied to a mixed-case known
selector and to an unknown selector. -/
theorem mkAIProvider_selection_w :
    (jsToLower (providerName (some "Anthropic")) = "anthropic" ∧
      mkAIProvider (some "Anthropic") = Except.ok AIBackend.anthropic) ∧
    (jsToLower (providerName (some "gemini")) ≠ "openai" ∧
      jsToLower (providerName (some "gemini")) ≠ "anthropic" ∧
      jsToLower (providerName (some "gemini")) ≠ "ollama" ∧
      mkAIProvider (some "gemini") =
        Except.error ("Unknown AI provider: " ++ providerName (some "gemini"))) :=
  ⟨⟨by decide, (mkAIProvider_selection (some "Anthropic")).2.1 (by decide)⟩,
   ⟨by decide, by decide, by decide,
    (mkAIProvider_selection (some "gemini")).2.2.2
      (by decide) (by decide) (by decide)⟩⟩

/-! ### C2: the completion flag on the update path -/

unseal Rat.mul Rat.inv Rat.sub Rat.add in
/-- C2 (code bug evidence): syncing an assignment that matches an
existing record marked done resets the record's `Done` checkbox to
`false` — `runTaskSync` puts `done: false` into `taskData` and
`updateTaskInDatabase`'s `!== undefined` guard writes it — whereas the
spec states the completion flag is not overwritten on update. -/
theorem sync_overwrites_done_flag :
    doneRec.done = true ∧
    (runTaskSync [a77] [doneRec] failAi 0 100).db.map (fun t => t.done) = [false] :=
  ⟨rfl, by decide⟩

/-! ### C4: second-run behavior -/

unseal Rat.mul Rat.inv Rat.sub Rat.add in
/-- C4 counterexample: an immediate second sync run over one unchanged
assignment (whose stored overview, the 27-character fallback text,
triggers no regeneration) reports `updatedCount = 1`, not `0`: the
matched record is rewritten in place and counted. -/
theorem sync_second_run_not_idempotent :
    (runTaskSync [a77] (runTaskSync [a77] [] failAi 0 100).db failAi 0 100).newCount = 0 ∧
    (runTaskSync [a77] (runTaskSync [a77] [] failAi 0 100).db failAi 0 100).updatedCount = 1 ∧
    (1 : Nat) ≠ 0 :=
  ⟨by decide, by decide, by decide⟩

end CanvasAiPlanner

namespace CanvasAiPlanner

/-! ### Association-list lemmas for the JS `Map` model -/

section MapLemmas

variable {K V : Type} [DecidableEq K]

/-- `set` then `get`: the freshly set key wins, others unaffected. -/
theorem jsMapGet_jsMapSet (m : List (K × V)) (k k' : K) (v : V) :
    jsMapGet (jsMapSet m k v) k' = if k = k' then some v else jsMapGet m k' := by
  induction m with
  | nil => simp [jsMapSet, jsMapGet]
  | cons p rest ih =>
    obtain ⟨k2, v2⟩ := p
    by_cases h1 : k2 = k
    · subst h1
      simp only [jsMapSet, if_pos rfl]
      by_cases h2 : k2 = k' <;> simp [jsMapGet, h2]
    · simp only [jsMapSet, if_neg h1]
      by_cases h2 : k2 = k'
      · have h3 : ¬ k = k' := fun hh => h1 (h2.trans hh.symm)
        simp [jsMapGet, h2, h3]
      · simp [jsMapGet, h2, ih]

/-- A lookup misses exactly when no binding carries the key. -/
theorem jsMapGet_none_iff (m : List (K × V)) (k : K) :
    jsMapGet m k = none ↔ ∀ p ∈ m, p.1 ≠ k := by
  induction m with
  | nil => simp [jsMapGet]
  | cons p rest ih =>
    obtain ⟨k2, v2⟩ := p
    by_cases h : k2 = k <;> simp [jsMapGet, h, ih]

/-- A successful lookup returns a binding of the list. -/
theorem jsMapGet_mem {m : List (K × V)} {k : K} {v : V}
    (h : jsMapGet m k = some v) : (k, v) ∈ m := by
  induction m with
  | nil => simp [jsMapGet] at h
  | cons p rest ih =>
    obtain ⟨k2, v2⟩ := p
    by_cases h2 : k2 = k
    · subst h2
      simp [jsMapGet] at h
      simp [h]
    · simp [jsMapGet, h2] at h
      exact List.mem_cons_of_mem _ (ih h)

/-- With duplicate-free keys, lookup finds any present binding. -/
theorem jsMapGet_of_mem_nodup {m : List (K × V)} {k : K} {v : V}
    (hn : (m.map Prod.fst).Nodup) (h : (k, v) ∈ m) : jsMapGet m k = some v := by
  induction m with
  | nil => simp at h
  | cons p rest ih =>
    obtain ⟨k2, v2⟩ := p
    simp only [List.map_cons, List.nodup_cons] at hn
    rcases List.mem_cons.mp h with h1 | h1
    · rw [Prod.mk.injEq] at h1
      obtain ⟨hk, hv⟩ := h1
      subst hk
      subst hv
      simp [jsMapGet]
    · by_cases h2 : k2 = k
      · subst h2
        exact absurd (List.mem_map_of_mem Prod.fst h1) hn.1
      · simp only [jsMapGet, if_neg h2]
        exact ih hn.2 h1

/-- Bindings of `set m k v` come from `m` or are the new pair. -/
theorem jsMapSet_mem {m : List (K × V)} {k : K} {v : V} {q : K × V}
    (h : q ∈ jsMapSet m k v) : q ∈ m ∨ q = (k, v) := by
  induction m with
  | nil =>
    simp [jsMapSet] at h
    right; exact h
  | cons p rest ih =>
    obtain ⟨k2, v2⟩ := p
    by_cases h2 : k2 = k <;> simp only [jsMapSet, if_pos, if_neg, h2, if_true, if_false] at h
    · rcases List.mem_cons.mp h with h3 | h3
      · right; exact h3
      · left; exact List.mem_cons_of_mem _ h3
    · rcases List.mem_cons.mp h with h3 | h3
      · left; simp [h3]
      · rcases ih h3 with h4 | h4
        · left; exact List.mem_cons_of_mem _ h4
        · right; exact h4

/-- Setting an absent key appends the binding. -/
theorem jsMapSet_of_not_mem {m : List (K × V)} {k : K} (v : V)
    (h : ∀ p ∈ m, p.1 ≠ k) : jsMapSet m k v = m ++ [(k, v)] := by
  induction m with
  | nil => simp [jsMapSet]
  | cons p rest ih =>
    obtain ⟨k2, v2⟩ := p
    have hk : k2 ≠ k := h (k2, v2) (by simp)
    simp only [jsMapSet, if_neg hk, List.cons_append, List.cons.injEq, true_and]
    exact ih (fun p hp => h p (List.mem_cons_of_mem _ hp))

/-- Bindings accumulated by the `Map` construction fold come from the
accumulator or from the input pairs. -/
theorem jsMapOf_aux_mem {l : List (K × V)} {acc : List (K × V)} {q : K × V}
    (h : q ∈ l.foldl (fun m p => jsMapSet m p.1 p.2) acc) : q ∈ acc ∨ q ∈ l := by
  induction l generalizing acc with
  | nil => left; simpa using h
  | cons p rest ih =>
    simp only [List.foldl_cons] at h
    rcases ih h with h1 | h1
    · rcases jsMapSet_mem h1 with h2 | h2
      · left; exact h2
      · right
        simp [h2]
    · right; exact List.mem_cons_of_mem _ h1

/-- Every binding of `new Map(pairs)` is one of the pairs. -/
theorem jsMapOf_mem {l : List (K × V)} {q : K × V} (h : q ∈ jsMapOf l) : q ∈ l := by
  rcases jsMapOf_aux_mem h with h1 | h1
  · simp at h1
  · exact h1

/-- Fold form of `jsMapOf` on duplicate-free keys. -/
theorem jsMapOf_nodup_aux (l acc : List (K × V))
    (h : ((acc ++ l).map Prod.fst).Nodup) :
    l.foldl (fun m p => jsMapSet m p.1 p.2) acc = acc ++ l := by
  induction l generalizing acc with
  | nil => simp
  | cons p rest ih =>
    simp only [List.foldl_cons]
    have hnotin : ∀ q ∈ acc, q.1 ≠ p.1 := by
      intro q hq
      have h' := h
      rw [List.map_append, List.nodup_append] at h'
      intro hcontra
      exact h'.2.2 (List.mem_map_of_mem Prod.fst hq) (by simp [hcontra])
    rw [jsMapSet_of_not_mem p.2 hnotin]
    have h2 : (((acc ++ [p]) ++ rest).map Prod.fst).Nodup := by
      rw [List.append_assoc, List.singleton_append]
      exact h
    rw [ih (acc ++ [p]) h2, List.append_assoc, List.singleton_append]

/-- On pairs with duplicate-free keys, `new Map(pairs)` keeps exactly
the input pairs in order. -/
theorem jsMapOf_nodup {l : List (K × V)} (h : (l.map Prod.fst).Nodup) :
    jsMapOf l = l := by
  have h' := jsMapOf_nodup_aux l [] (by simpa using h)
  simpa [jsMapOf] using h'

end MapLemmas

end CanvasAiPlanner

namespace CanvasAiPlanner

/-! ### Change-detector characterization -/

/-- The detector loop appends exactly the current-map entries passing
the `new` test and those passing the `updated` test, in order. -/
theorem detect_foldl (pm : List (Nat × Assignment)) (l : List (Nat × Assignment))
    (acc : List Assignment × List Assignment) :
    l.foldl (detectStep pm) acc =
      (acc.1 ++ (l.filter (isNewEntry pm)).map Prod.snd,
       acc.2 ++ (l.filter (isUpdatedEntry pm)).map Prod.snd) := by
  induction l generalizing acc with
  | nil => simp
  | cons p rest ih =>
    simp only [List.foldl_cons]
    rcases h : jsMapGet pm p.1 with _ | prev
    · simp [detectStep, isNewEntry, isUpdatedEntry, h, ih, List.filter_cons]
    · by_cases hc : assignmentChanged prev p.2 <;>
        simp [detectStep, isNewEntry, isUpdatedEntry, h, hc, ih, List.filter_cons]

/-- Closed form of `detectChanges`: both outputs as filters over the
current map against the previous map. -/
theorem detectChanges_eq (previous current : List Assignment) :
    detectChanges previous current =
      { new := (((jsMapOf (current.map (fun a => (a.id, a)))).filter
          (isNewEntry (jsMapOf (previous.map (fun a => (a.id, a)))))).map Prod.snd)
        updated := (((jsMapOf (current.map (fun a => (a.id, a)))).filter
          (isUpdatedEntry (jsMapOf (previous.map (fun a => (a.id, a)))))).map Prod.snd) } := by
  simp [detectChanges, detect_foldl]

/-- Anything reported by the detector is an element of `current`. -/
theorem mem_current_of_mem_out {previous current : List Assignment} {x : Assignment}
    (h : x ∈ (detectChanges previous current).new ∨
         x ∈ (detectChanges previous current).updated) :
    x ∈ current := by
  rw [detectChanges_eq] at h
  rcases h with h | h <;>
  · simp only [List.mem_map, List.mem_filter] at h
    obtain ⟨p, ⟨hp, _⟩, hpx⟩ := h
    have hmem := jsMapOf_mem hp
    simp only [List.mem_map] at hmem
    obtain ⟨c, hc, hcp⟩ := hmem
    rw [← hcp] at hpx
    simpa [← hpx] using hc

/-- A reported assignment satisfies the corresponding branch test at
its own id (the id-carrying entry determines the value). -/
theorem mem_filtered_pairs_cond {current : List Assignment}
    {cond : Nat × Assignment → Bool} {x : Assignment}
    (h : x ∈ ((jsMapOf (current.map (fun b => (b.id, b)))).filter cond).map Prod.snd) :
    cond (x.id, x) = true := by
  simp only [List.mem_map, List.mem_filter] at h
  obtain ⟨p, ⟨hpmem, hcond⟩, hpx⟩ := h
  have hmem := jsMapOf_mem hpmem
  simp only [List.mem_map] at hmem
  obtain ⟨c, _, rfl⟩ := hmem
  cases hpx
  exact hcond

/-- On a duplicate-free current snapshot, membership in a filtered
output is exactly the branch test at the assignment's id. -/
theorem mem_filtered_pairs_iff {current : List Assignment}
    (hc : (current.map (fun a => a.id)).Nodup) (cond : Nat × Assignment → Bool)
    {a : Assignment} (ha : a ∈ current) :
    (a ∈ ((jsMapOf (current.map (fun b => (b.id, b)))).filter cond).map Prod.snd) ↔
      cond (a.id, a) = true := by
  constructor
  · exact mem_filtered_pairs_cond
  · intro hcond
    rw [jsMapOf_nodup (by simpa [List.map_map, Function.comp] using hc)]
    have hmem : (a.id, a) ∈ current.map (fun b => (b.id, b)) :=
      List.mem_map_of_mem _ ha
    exact List.mem_map.mpr ⟨(a.id, a), List.mem_filter.mpr ⟨hmem, hcond⟩, rfl⟩

/-- Mapping an assignment list to id-keyed pairs preserves key
distinctness. -/
theorem pairs_fst_nodup {l : List Assignment}
    (h : (l.map (fun a => a.id)).Nodup) :
    ((l.map (fun a => (a.id, a))).map Prod.fst).Nodup := by
  simpa [List.map_map, Function.comp] using h

/-- The `new` test holds at key `k` iff no previous assignment has
id `k`. -/
theorem isNewEntry_iff (previous : List Assignment)
    (hp : (previous.map (fun a => a.id)).Nodup) (k : Nat) (x : Assignment) :
    isNewEntry (jsMapOf (previous.map (fun a => (a.id, a)))) (k, x) = true ↔
      ∀ p ∈ previous, p.id ≠ k := by
  rw [show jsMapOf (previous.map (fun a => (a.id, a))) = previous.map (fun a => (a.id, a))
    from jsMapOf_nodup (pairs_fst_nodup hp)]
  simp only [isNewEntry, Option.isNone_iff_eq_none]
  rw [jsMapGet_none_iff]
  constructor
  · intro h p hp2
    exact h (p.id, p) (List.mem_map_of_mem _ hp2)
  · intro h q hq
    simp only [List.mem_map] at hq
    obtain ⟨p, hp2, rfl⟩ := hq
    exact h p hp2

/-- The `updated` test holds at key `k` iff some previous assignment
has id `k` and differs on the due timestamp or points. -/
theorem isUpdatedEntry_iff (previous : List Assignment)
    (hp : (previous.map (fun a => a.id)).Nodup) (k : Nat) (x : Assignment) :
    isUpdatedEntry (jsMapOf (previous.map (fun a => (a.id, a)))) (k, x) = true ↔
      ∃ p ∈ previous, p.id = k ∧
        (p.due_at ≠ x.due_at ∨ p.points_possible ≠ x.points_possible) := by
  rw [show jsMapOf (previous.map (fun a => (a.id, a))) = previous.map (fun a => (a.id, a))
    from jsMapOf_nodup (pairs_fst_nodup hp)]
  rcases hg : jsMapGet (previous.map (fun a => (a.id, a))) k with _ | prev
  · simp only [isUpdatedEntry, hg]
    constructor
    · intro h
      cases h
    · rintro ⟨p, hpmem, hpk, _⟩
      have hmem : (k, p) ∈ previous.map (fun a => (a.id, a)) := by
        rw [← hpk]
        exact List.mem_map_of_mem _ hpmem
      have h' := jsMapGet_of_mem_nodup (pairs_fst_nodup hp) hmem
      rw [hg] at h'
      cases h'
  · simp only [isUpdatedEntry, hg]
    have hmem := jsMapGet_mem hg
    simp only [List.mem_map] at hmem
    obtain ⟨p, hpmem, hpe⟩ := hmem
    rw [Prod.mk.injEq] at hpe
    obtain ⟨hpk, hpprev⟩ := hpe
    subst hpprev
    constructor
    · intro h
      refine ⟨p, hpmem, hpk, ?_⟩
      simpa [assignmentChanged, Bool.or_eq_true, decide_eq_true_iff] using h
    · rintro ⟨q, hqmem, hqk, hch⟩
      have hmem2 : (k, q) ∈ previous.map (fun a => (a.id, a)) := by
        rw [← hqk]
        exact List.mem_map_of_mem _ hqmem
      have hq := jsMapGet_of_mem_nodup (pairs_fst_nodup hp) hmem2
      rw [hg] at hq
      injection hq with hqp
      subst hqp
      simpa [assignmentChanged, Bool.or_eq_true, decide_eq_true_iff] using hch

/-! ### C3: change-detector classification -/

/-- C3: over snapshots (which carry duplicate-free external ids) the
detector classifies each current assignment: absent id yields `new`;
present id with a different due timestamp or points value (strict
equality, both-absent equal) yields `updated`; otherwise neither; the
two outputs are disjoint.  Totality over missing fields is inherent:
both fields are `Option`-valued and every input reduces. -/
theorem detectChanges_classification (previous current : List Assignment)
    (hp : (previous.map (fun a => a.id)).Nodup)
    (hc : (current.map (fun a => a.id)).Nodup) :
    (∀ a ∈ current,
      (a ∈ (detectChanges previous current).new ↔
        ∀ p ∈ previous, p.id ≠ a.id) ∧
      (a ∈ (detectChanges previous current).updated ↔
        ∃ p ∈ previous, p.id = a.id ∧
          (p.due_at ≠ a.due_at ∨ p.points_possible ≠ a.points_possible))) ∧
    (∀ x, x ∈ (detectChanges previous current).new →
      x ∉ (detectChanges previous current).updated) := by
  constructor
  · intro a ha
    constructor
    · rw [detectChanges_eq]
      rw [mem_filtered_pairs_iff hc _ ha]
      exact isNewEntry_iff previous hp a.id a
    · rw [detectChanges_eq]
      rw [mem_filtered_pairs_iff hc _ ha]
      exact isUpdatedEntry_iff previous hp a.id a
  · intro x hnew hupd
    rw [detectChanges_eq] at hnew hupd
    have h1 := mem_filtered_pairs_cond hnew
    have h2 := mem_filtered_pairs_cond hupd
    simp only [isNewEntry, Option.isNone_iff_eq_none] at h1
    simp only [isUpdatedEntry] at h2
    rw [h1] at h2
    cases h2

/-- C3 witness: the classification applied to the concrete snapshots
`previous = [a77]`, `current = [a77 with changed due, a78]`. -/
theorem detectChanges_classification_w :
    (([a77].map (fun a => a.id)).Nodup ∧
      ([a77u, a78].map (fun a => a.id)).Nodup ∧
      a78 ∈ [a77u, a78]) ∧
    (a78 ∈ (detectChanges [a77] [a77u, a78]).new ↔ ∀ p ∈ [a77], p.id ≠ a78.id) :=
  ⟨⟨by decide, by decide, by decide⟩,
   ((detectChanges_classification [a77] [a77u, a78] (by decide) (by decide)).1 a78
      (by decide)).1⟩

/-! ### C5: deletions are invisible -/

/-- C5: an assignment whose id occurs in the previous snapshot but not
in the current one is reported in neither output of `detectChanges`. -/
theorem detectChanges_deletions_invisible (previous current : List Assignment)
    (a : Assignment)
    (h1 : a.id ∈ previous.map (fun x => x.id))
    (h2 : a.id ∉ current.map (fun x => x.id)) :
    a ∉ (detectChanges previous current).new ∧
    a ∉ (detectChanges previous current).updated := by
  constructor <;> intro hmem
  · exact h2 (List.mem_map_of_mem _ (mem_current_of_mem_out (Or.inl hmem)))
  · exact h2 (List.mem_map_of_mem _ (mem_current_of_mem_out (Or.inr hmem)))

/-- C5 witness: the deletion of `a77` between `[a77]` and `[a78]` is
not reported. -/
theorem detectChanges_deletions_invisible_w :
    (a77.id ∈ [a77].map (fun x => x.id) ∧
      a77.id ∉ [a78].map (fun x => x.id)) ∧
    (a77 ∉ (detectChanges [a77] [a78]).new ∧
      a77 ∉ (detectChanges [a77] [a78]).updated) :=
  ⟨⟨by decide, by decide⟩,
   detectChanges_deletions_invisible [a77] [a78] a77 (by decide) (by decide)⟩

/-! ### C8: join-key extraction -/

/-- Every binding of `existingTasksMap` carries the join key extracted
from the record's stored canvas URL. -/
theorem buildMap_aux_joinKey (tasks : List TaskRecord) (acc : List (String × TaskRecord))
    (hacc : ∀ q ∈ acc, recordJoinKey q.2 = some q.1) :
    ∀ q ∈ tasks.foldl
      (fun m task =>
        match recordJoinKey task with
        | some k => jsMapSet m k task
        | none => m) acc,
      recordJoinKey q.2 = some q.1 := by
  induction tasks generalizing acc with
  | nil => exact hacc
  | cons t rest ih =>
    simp only [List.foldl_cons]
    rcases hk : recordJoinKey t with _ | k <;> simp only [hk]
    · exact ih acc hacc
    · refine ih _ ?_
      intro q hq
      rcases jsMapSet_mem hq with h1 | h1
      · exact hacc q h1
      · rw [h1]
        exact hk

/-- `buildExistingTasksMap` bindings carry their records' join keys. -/
theorem buildExistingTasksMap_joinKey (tasks : List TaskRecord) :
    ∀ q ∈ buildExistingTasksMap tasks, recordJoinKey q.2 = some q.1 := by
  refine buildMap_aux_joinKey tasks [] ?_
  intro q hq
  simp at hq

/-- C8: the join key is the digit run after `assignments/` in the
stored canonical URL (the sample URL extracts `"4821"`, a URL without
the segment extracts nothing), and any record reachable under a key in
`existingTasksMap` has a URL extracting exactly that key — so a record
with a missing or non-matching URL is never matched by any
assignment. -/
theorem joinKey_extraction :
    extractAssignmentId "https://canvas.example.com/courses/5/assignments/4821" =
      some "4821" ∧
    extractAssignmentId "https://canvas.example.com/courses/5/pages/4821" = none ∧
    (∀ (tasks : List TaskRecord) (k : String) (t : TaskRecord),
      jsMapGet (buildExistingTasksMap tasks) k = some t →
      ∃ url, t.canvasUrl = some url ∧ extractAssignmentId url = some k) := by
  refine ⟨by decide, by decide, ?_⟩
  intro tasks k t h
  have hq := buildExistingTasksMap_joinKey tasks (k, t) (jsMapGet_mem h)
  rcases hu : t.canvasUrl with _ | url
  · simp only [recordJoinKey, hu] at hq
    cases hq
  · simp only [recordJoinKey, hu] at hq
    by_cases he : url = ""
    · rw [if_pos he] at hq
      cases hq
    · rw [if_neg he] at hq
      exact ⟨url, rfl, hq⟩

/-- C8 witness: looking up `"77"` in the map built from the concrete
record yields a record whose URL extracts `"77"`. -/
theorem joinKey_extraction_w :
    jsMapGet (buildExistingTasksMap [doneRec]) "77" = some doneRec ∧
    ∃ url, doneRec.canvasUrl = some url ∧ extractAssignmentId url = some "77" :=
  ⟨by decide, joinKey_extraction.2.2 [doneRec] "77" doneRec (by decide)⟩

end CanvasAiPlanner

namespace CanvasAiPlanner

/-! ### C10: the full-sync input is due-dated and due-sorted -/

/-- Membership through one insertion of the sort model. -/
theorem mem_insertByDue {a x : Assignment} {l : List Assignment} :
    x ∈ insertByDue a l ↔ x = a ∨ x ∈ l := by
  induction l with
  | nil => simp [insertByDue]
  | cons b bs ih =>
    by_cases hab : dueKey a ≤ dueKey b
    · simp [insertByDue, hab]
    · simp [insertByDue, hab, ih]
      tauto

/-- The sort is a permutation on membership. -/
theorem mem_sortByDue {x : Assignment} {l : List Assignment} :
    x ∈ sortByDue l ↔ x ∈ l := by
  induction l with
  | nil => simp [sortByDue]
  | cons c cs ih =>
    simp only [sortByDue, List.foldr_cons] at *
    rw [mem_insertByDue, ih, List.mem_cons]

/-- Inserting into a due-sorted list keeps it due-sorted. -/
theorem pairwise_insertByDue (a : Assignment) (l : List Assignment)
    (h : List.Pairwise (fun x y => dueKey x ≤ dueKey y) l) :
    List.Pairwise (fun x y => dueKey x ≤ dueKey y) (insertByDue a l) := by
  induction l with
  | nil => simp [insertByDue]
  | cons b bs ih =>
    rcases List.pairwise_cons.mp h with ⟨hb, hbs⟩
    by_cases hab : dueKey a ≤ dueKey b
    · simp only [insertByDue, if_pos hab]
      refine List.pairwise_cons.mpr ⟨?_, h⟩
      intro x hx
      rcases List.mem_cons.mp hx with rfl | hx2
      · exact hab
      · exact le_trans hab (hb x hx2)
    · simp only [insertByDue, if_neg hab]
      refine List.pairwise_cons.mpr ⟨?_, ih hbs⟩
      intro x hx
      rcases mem_insertByDue.mp hx with rfl | hx2
      · exact le_of_not_le hab
      · exact hb x hx2

/-- The sort model produces a due-sorted list. -/
theorem sorted_sortByDue (l : List Assignment) :
    List.Pairwise (fun x y => dueKey x ≤ dueKey y) (sortByDue l) := by
  induction l with
  | nil => simp [sortByDue]
  | cons c cs ih => exact pairwise_insertByDue c _ ih

/-- C10: every assignment returned by `getAllAssignments` — the input
`runTaskSync` feeds to the per-assignment loop — carries a due
timestamp (so the classifier's no-due-date branch is never taken on
them), and the list is ascending in due date (processing order is
due-date order, not source order). -/
theorem getAllAssignments_sorted_with_due (data : List (Course × List Assignment)) :
    (∀ a ∈ getAllAssignments data, ∃ d, a.due_at = some d) ∧
    List.Pairwise (fun x y => dueKey x ≤ dueKey y) (getAllAssignments data) := by
  constructor
  · intro a ha
    simp only [getAllAssignments] at ha
    have hf := mem_sortByDue.mp ha
    have hs := List.of_mem_filter hf
    simpa [Option.isSome_iff_exists] using hs
  · exact sorted_sortByDue _

/-- C10 witness: the theorem applied to the concrete fetch result
(one course; one assignment lacking a due date). -/
theorem getAllAssignments_sorted_with_due_w :
    withCourse c1 aEarly ∈ getAllAssignments sampleCourseData ∧
    ∃ d, (withCourse c1 aEarly).due_at = some d :=
  ⟨by decide,
   (getAllAssignments_sorted_with_due sampleCourseData).1 (withCourse c1 aEarly)
     (by decide)⟩

end CanvasAiPlanner

namespace CanvasAiPlanner

/-! ### C4 (amended): second-run behavior of the synchronizer -/

/-- Distinct page ids identify records. -/
theorem nodup_pageId_inj {db : List TaskRecord}
    (h : (db.map (fun t => t.pageId)).Nodup) {t1 t2 : TaskRecord}
    (h1 : t1 ∈ db) (h2 : t2 ∈ db) (he : t1.pageId = t2.pageId) : t1 = t2 :=
  List.inj_on_of_nodup_map h h1 h2 he

/-- Fold form: map bindings come from the accumulator or the input
records. -/
theorem buildMap_aux_mem_val {tasks : List TaskRecord} :
    ∀ {acc : List (String × TaskRecord)} {q : String × TaskRecord},
    q ∈ tasks.foldl
      (fun m task =>
        match recordJoinKey task with
        | some k => jsMapSet m k task
        | none => m) acc →
    q ∈ acc ∨ q.2 ∈ tasks := by
  induction tasks with
  | nil =>
    intro acc q h
    left; exact h
  | cons t rest ih =>
    intro acc q h
    simp only [List.foldl_cons] at h
    rcases hk : recordJoinKey t with _ | k <;> rw [hk] at h
    · rcases ih h with h1 | h1
      · left; exact h1
      · right; exact List.mem_cons_of_mem _ h1
    · rcases ih h with h1 | h1
      · rcases jsMapSet_mem h1 with h2 | h2
        · left; exact h2
        · right
          rw [h2]
          exact List.mem_cons_self _ _
      · right; exact List.mem_cons_of_mem _ h1

/-- Values of `existingTasksMap` are records of the fetched list. -/
theorem buildMap_mem_val {tasks : List TaskRecord} {q : String × TaskRecord}
    (h : q ∈ buildExistingTasksMap tasks) : q.2 ∈ tasks := by
  rcases buildMap_aux_mem_val h with h1 | h1
  · simp at h1
  · exact h1

/-- The updated record after a sync-loop update carries the processed
assignment's join key. -/
theorem updateRecord_joinKey (t : TaskRecord) (b : Assignment) (u : Urgency) (o : String)
    (hb : urlEmbedsId b) :
    recordJoinKey (updateTaskInDatabase t (taskDataFor b u o)) = some (toString b.id) := by
  obtain ⟨url, hu, hne, hex⟩ := hb
  simp [updateTaskInDatabase, taskDataFor, recordJoinKey, hu, hne, hex]

/-- The freshly created record after a sync-loop create carries the
processed assignment's join key. -/
theorem createRecord_joinKey (b : Assignment) (u : Urgency) (o : String) (pid : Nat)
    (hb : urlEmbedsId b) :
    recordJoinKey (createTaskInDatabase (taskDataFor b u o) pid) = some (toString b.id) := by
  obtain ⟨url, hu, hne, hex⟩ := hb
  simp [createTaskInDatabase, taskDataFor, recordJoinKey, hu, hne, hex]

/-- Page ids are untouched by an in-place update. -/
theorem updateById_pageIds (db : List TaskRecord) (pid : Nat) (d : TaskData) :
    (updateById db pid d).map (fun t => t.pageId) = db.map (fun t => t.pageId) := by
  simp only [updateById, List.map_map]
  refine List.map_congr_left ?_
  intro t _
  by_cases h : t.pageId = pid <;> simp [updateTaskInDatabase, h]

end CanvasAiPlanner

namespace CanvasAiPlanner

/-- The loop step in the matched case. -/
theorem syncStep_matched {m : List (String × TaskRecord)} {ai : AiFn} {now : ℚ}
    {s : SyncState} {b : Assignment} {t : TaskRecord}
    (h : jsMapGet m (toString b.id) = some t) :
    syncStep m ai now s b =
      { db := updateById s.db t.pageId
          (taskDataFor b (calculateUrgency b.due_at now) (chooseOverview ai b (some t)))
        nextPageId := s.nextPageId
        newCount := s.newCount
        updatedCount := s.updatedCount + 1 } := by
  simp [syncStep, h]

/-- The loop step in the unmatched case. -/
theorem syncStep_unmatched {m : List (String × TaskRecord)} {ai : AiFn} {now : ℚ}
    {s : SyncState} {b : Assignment}
    (h : jsMapGet m (toString b.id) = none) :
    syncStep m ai now s b =
      { db := s.db ++ [createTaskInDatabase
          (taskDataFor b (calculateUrgency b.due_at now) (chooseOverview ai b none))
          s.nextPageId]
        nextPageId := s.nextPageId + 1
        newCount := s.newCount + 1
        updatedCount := s.updatedCount } := by
  simp [syncStep, h]

/-- An in-place update never changes the page id. -/
theorem pageId_if_update (t1 : TaskRecord) (pid : Nat) (d : TaskData) :
    (if t1.pageId = pid then updateTaskInDatabase t1 d else t1).pageId = t1.pageId := by
  by_cases hc : t1.pageId = pid <;> simp [updateTaskInDatabase, hc]

/-- One loop iteration preserves the store invariant. -/
theorem syncStep_preserves_inv {db0 : List TaskRecord}
    (hids : (db0.map (fun t => t.pageId)).Nodup)
    {ai : AiFn} {now : ℚ} {s : SyncState} {b : Assignment}
    (hb : urlEmbedsId b) (hinv : SyncInv db0 s) :
    SyncInv db0 (syncStep (buildExistingTasksMap db0) ai now s b) := by
  obtain ⟨h1, h2, h4, h5⟩ := hinv
  rcases hm : jsMapGet (buildExistingTasksMap db0) (toString b.id) with _ | t0
  · rw [syncStep_unmatched hm]
    refine ⟨?_, ?_, ?_, ?_⟩
    · simp only [List.map_append, List.map_cons, List.map_nil]
      rw [List.nodup_append]
      refine ⟨h1, List.nodup_singleton _, ?_⟩
      intro x hx hy
      simp only [List.mem_singleton] at hy
      simp only [List.mem_map] at hx
      obtain ⟨t, ht, rfl⟩ := hx
      have hlt := h2 t ht
      rw [show (createTaskInDatabase
        (taskDataFor b (calculateUrgency b.due_at now) (chooseOverview ai b none))
        s.nextPageId).pageId = s.nextPageId from rfl] at hy
      omega
    · intro t ht
      rcases List.mem_append.mp ht with h | h
      · exact Nat.lt_succ_of_lt (h2 t h)
      · simp only [List.mem_singleton] at h
        rw [h]
        show s.nextPageId < s.nextPageId + 1
        omega
    · intro k r hget t ht htp
      rcases List.mem_append.mp ht with h | h
      · exact h4 k r hget t h htp
      · simp only [List.mem_singleton] at h
        subst h
        have hrdb0 : r ∈ db0 := buildMap_mem_val (jsMapGet_mem hget)
        obtain ⟨t', ht', htp'⟩ := h5 r hrdb0
        have hlt := h2 t' ht'
        rw [htp'] at hlt
        rw [show (createTaskInDatabase
          (taskDataFor b (calculateUrgency b.due_at now) (chooseOverview ai b none))
          s.nextPageId).pageId = s.nextPageId from rfl] at htp
        omega
    · intro r hr
      obtain ⟨t, ht, htp⟩ := h5 r hr
      exact ⟨t, List.mem_append_left _ ht, htp⟩
  · rw [syncStep_matched hm]
    have ht0db0 : t0 ∈ db0 := buildMap_mem_val (jsMapGet_mem hm)
    have ht0key : recordJoinKey t0 = some (toString b.id) :=
      buildExistingTasksMap_joinKey db0 (toString b.id, t0) (jsMapGet_mem hm)
    refine ⟨?_, ?_, ?_, ?_⟩
    · dsimp only
      rw [updateById_pageIds]
      exact h1
    · dsimp only
      intro t ht
      simp only [updateById, List.mem_map] at ht
      obtain ⟨t1, ht1, rfl⟩ := ht
      rw [pageId_if_update]
      exact h2 t1 ht1
    · dsimp only
      intro k r hget t ht htp
      simp only [updateById, List.mem_map] at ht
      obtain ⟨t1, ht1, rfl⟩ := ht
      rw [pageId_if_update] at htp
      by_cases hc : t1.pageId = t0.pageId
      · rw [if_pos hc]
        have hrdb0 : r ∈ db0 := buildMap_mem_val (jsMapGet_mem hget)
        have hpg : t0.pageId = r.pageId := by rw [← hc]; exact htp
        have hrt0 : r = t0 := nodup_pageId_inj hids hrdb0 ht0db0 hpg.symm
        have hk := buildExistingTasksMap_joinKey db0 (k, r) (jsMapGet_mem hget)
        rw [hrt0, ht0key] at hk
        injection hk with hk2
        have hk3 : toString b.id = k := hk2
        rw [← hk3]
        exact updateRecord_joinKey t1 b _ _ hb
      · rw [if_neg hc]
        exact h4 k r hget t1 ht1 htp
    · dsimp only
      intro r hr
      obtain ⟨t, ht, htp⟩ := h5 r hr
      refine ⟨_, List.mem_map_of_mem
        (fun t1 => if t1.pageId = t0.pageId then updateTaskInDatabase t1
          (taskDataFor b (calculateUrgency b.due_at now) (chooseOverview ai b (some t0)))
          else t1) ht, ?_⟩
      rw [pageId_if_update]
      exact htp

end CanvasAiPlanner

namespace CanvasAiPlanner

/-- One loop iteration never loses a held join key. -/
theorem syncStep_preserves_hasKey {db0 : List TaskRecord}
    {ai : AiFn} {now : ℚ} {s : SyncState} {b : Assignment} {k : String}
    (hb : urlEmbedsId b) (hinv : SyncInv db0 s)
    (h : hasKeyRecord s.db k) :
    hasKeyRecord (syncStep (buildExistingTasksMap db0) ai now s b).db k := by
  obtain ⟨t, ht, htk⟩ := h
  rcases hm : jsMapGet (buildExistingTasksMap db0) (toString b.id) with _ | t0
  · rw [syncStep_unmatched hm]
    exact ⟨t, List.mem_append_left _ ht, htk⟩
  · rw [syncStep_matched hm]
    by_cases hc : t.pageId = t0.pageId
    · have hkeq : recordJoinKey t = some (toString b.id) :=
        hinv.2.2.1 (toString b.id) t0 hm t ht hc
      rw [hkeq] at htk
      injection htk with hkk
      refine ⟨updateTaskInDatabase t
        (taskDataFor b (calculateUrgency b.due_at now) (chooseOverview ai b (some t0))), ?_, ?_⟩
      · dsimp only
        simp only [updateById, List.mem_map]
        exact ⟨t, ht, by rw [if_pos hc]⟩
      · rw [updateRecord_joinKey t b _ _ hb, hkk]
    · refine ⟨t, ?_, htk⟩
      dsimp only
      simp only [updateById, List.mem_map]
      exact ⟨t, ht, by rw [if_neg hc]⟩

/-- After its own iteration, an assignment's join key is held by some
record (the updated or the created one). -/
theorem syncStep_creates_hasKey {db0 : List TaskRecord}
    {ai : AiFn} {now : ℚ} {s : SyncState} {b : Assignment}
    (hb : urlEmbedsId b) (hinv : SyncInv db0 s) :
    hasKeyRecord (syncStep (buildExistingTasksMap db0) ai now s b).db (toString b.id) := by
  rcases hm : jsMapGet (buildExistingTasksMap db0) (toString b.id) with _ | t0
  · rw [syncStep_unmatched hm]
    refine ⟨createTaskInDatabase
      (taskDataFor b (calculateUrgency b.due_at now) (chooseOverview ai b none))
      s.nextPageId, ?_, ?_⟩
    · exact List.mem_append_right _ (List.mem_singleton_self _)
    · exact createRecord_joinKey b _ _ _ hb
  · rw [syncStep_matched hm]
    have ht0db0 : t0 ∈ db0 := buildMap_mem_val (jsMapGet_mem hm)
    obtain ⟨t, ht, htp⟩ := hinv.2.2.2 t0 ht0db0
    refine ⟨updateTaskInDatabase t
      (taskDataFor b (calculateUrgency b.due_at now) (chooseOverview ai b (some t0))), ?_, ?_⟩
    · dsimp only
      simp only [updateById, List.mem_map]
      exact ⟨t, ht, by rw [if_pos htp]⟩
    · exact updateRecord_joinKey t b _ _ hb

/-- Over the whole loop: the invariant holds, held keys persist, and
every processed assignment's join key ends up held. -/
theorem foldl_syncStep_inv_good {db0 : List TaskRecord}
    (hids : (db0.map (fun t => t.pageId)).Nodup)
    {ai : AiFn} {now : ℚ} (as : List Assignment) (s : SyncState)
    (hurl : ∀ a ∈ as, urlEmbedsId a) (hinv : SyncInv db0 s) :
    SyncInv db0 (as.foldl (syncStep (buildExistingTasksMap db0) ai now) s) ∧
    (∀ k, hasKeyRecord s.db k →
      hasKeyRecord (as.foldl (syncStep (buildExistingTasksMap db0) ai now) s).db k) ∧
    (∀ a ∈ as,
      hasKeyRecord (as.foldl (syncStep (buildExistingTasksMap db0) ai now) s).db
        (toString a.id)) := by
  induction as generalizing s with
  | nil =>
    refine ⟨hinv, fun k h => h, ?_⟩
    intro a ha
    simp at ha
  | cons b rest ih =>
    have hburl : urlEmbedsId b := hurl b (List.mem_cons_self _ _)
    have hresturl : ∀ a ∈ rest, urlEmbedsId a :=
      fun a ha => hurl a (List.mem_cons_of_mem _ ha)
    have hinv1 : SyncInv db0 (syncStep (buildExistingTasksMap db0) ai now s b) :=
      syncStep_preserves_inv hids hburl hinv
    obtain ⟨hinvF, hpresF, hgoodF⟩ := ih _ hresturl hinv1
    simp only [List.foldl_cons]
    refine ⟨hinvF, ?_, ?_⟩
    · intro k hk
      exact hpresF k (syncStep_preserves_hasKey hburl hinv hk)
    · intro a ha
      rcases List.mem_cons.mp ha with rfl | ha2
      · exact hpresF (toString a.id) (syncStep_creates_hasKey hburl hinv)
      · exact hgoodF a ha2

/-- Fold form of key reachability in `existingTasksMap`. -/
theorem buildMap_isSome_aux (tasks : List TaskRecord) (k : String) :
    ∀ acc : List (String × TaskRecord),
    ((jsMapGet acc k).isSome ∨ ∃ t ∈ tasks, recordJoinKey t = some k) →
    (jsMapGet (tasks.foldl
      (fun m task =>
        match recordJoinKey task with
        | some k' => jsMapSet m k' task
        | none => m) acc) k).isSome := by
  induction tasks with
  | nil =>
    intro acc h
    rcases h with h | h
    · exact h
    · obtain ⟨t, ht, _⟩ := h
      simp at ht
  | cons t rest ih =>
    intro acc h
    simp only [List.foldl_cons]
    rcases hk : recordJoinKey t with _ | k' <;> simp only [hk]
    · refine ih acc ?_
      rcases h with h | h
      · left; exact h
      · obtain ⟨t2, ht2, htk2⟩ := h
        rcases List.mem_cons.mp ht2 with rfl | ht3
        · rw [hk] at htk2
          cases htk2
        · right; exact ⟨t2, ht3, htk2⟩
    · refine ih _ ?_
      by_cases hkk : k' = k
      · left
        rw [jsMapGet_jsMapSet, if_pos hkk]
        rfl
      · rcases h with h | h
        · left
          rw [jsMapGet_jsMapSet, if_neg hkk]
          exact h
        · obtain ⟨t2, ht2, htk2⟩ := h
          rcases List.mem_cons.mp ht2 with rfl | ht3
          · rw [hk] at htk2
            injection htk2 with he
            exact absurd he hkk
          · right; exact ⟨t2, ht3, htk2⟩

/-- A held join key is found by the map lookup. -/
theorem buildMap_isSome_of_hasKey {db : List TaskRecord} {k : String}
    (h : hasKeyRecord db k) :
    (jsMapGet (buildExistingTasksMap db) k).isSome := by
  exact buildMap_isSome_aux db k [] (Or.inr h)

/-- The urgency-refresh pass never touches the canonical URL. -/
theorem urgencyRefresh_canvasUrl (now : ℚ) (t : TaskRecord) :
    (urgencyRefresh now t).canvasUrl = t.canvasUrl := by
  unfold urgencyRefresh
  rcases t.dueDate with _ | due
  · rfl
  · dsimp only
    by_cases hd : t.done = true
    · rw [if_pos hd]
    · rw [if_neg hd]
      by_cases hu : some (calculateUrgency (some due) now) ≠ t.urgency
      · rw [if_pos hu]
        rfl
      · rw [if_neg hu]

/-- Held join keys survive the urgency-refresh pass. -/
theorem updateAllTasksUrgency_hasKey {db : List TaskRecord} {k : String} (now : ℚ)
    (h : hasKeyRecord db k) : hasKeyRecord (updateAllTasksUrgency now db) k := by
  obtain ⟨t, ht, htk⟩ := h
  refine ⟨urgencyRefresh now t, List.mem_map_of_mem _ ht, ?_⟩
  have hcu := urgencyRefresh_canvasUrl now t
  unfold recordJoinKey at htk ⊢
  rw [hcu]
  exact htk

/-- When every assignment matches, the loop creates nothing and
counts one update per assignment. -/
theorem foldl_syncStep_all_matched (m : List (String × TaskRecord)) (ai : AiFn) (now : ℚ)
    (as : List Assignment) (s : SyncState)
    (h : ∀ a ∈ as, (jsMapGet m (toString a.id)).isSome) :
    (as.foldl (syncStep m ai now) s).newCount = s.newCount ∧
    (as.foldl (syncStep m ai now) s).updatedCount = s.updatedCount + as.length := by
  induction as generalizing s with
  | nil => simp
  | cons b rest ih =>
    have hb := h b (List.mem_cons_self _ _)
    rcases hm : jsMapGet m (toString b.id) with _ | t0
    · rw [hm] at hb
      cases hb
    · simp only [List.foldl_cons, List.length_cons]
      rw [syncStep_matched hm]
      have hrec := ih { db := updateById s.db t0.pageId (taskDataFor b (calculateUrgency b.due_at now) (chooseOverview ai b (some t0))), nextPageId := s.nextPageId, newCount := s.newCount, updatedCount := s.updatedCount + 1 } (fun a ha => h a (List.mem_cons_of_mem _ ha))
      rcases hrec with ⟨hn, hu⟩
      refine ⟨hn, ?_⟩
      rw [hu]
      dsimp only
      omega

end CanvasAiPlanner

namespace CanvasAiPlanner

/-- C4 (amended): an immediate second sync run over the same
assignment set — each with a well-formed canonical URL, against a
store with duplicate-free page ids and a genuinely fresh id counter —
creates nothing (`newCount = 0`) but rewrites every assignment in
place, reporting `updatedCount = |assignments|` rather than `0`. -/
theorem sync_second_run_counts (assignments : List Assignment) (db0 : List TaskRecord)
    (ai1 ai2 : AiFn) (now1 now2 : ℚ) (fresh fresh2 : Nat)
    (hurl : ∀ a ∈ assignments, urlEmbedsId a)
    (hids : (db0.map (fun t => t.pageId)).Nodup)
    (hfresh : ∀ t ∈ db0, t.pageId < fresh) :
    (runTaskSync assignments (runTaskSync assignments db0 ai1 now1 fresh).db
      ai2 now2 fresh2).newCount = 0 ∧
    (runTaskSync assignments (runTaskSync assignments db0 ai1 now1 fresh).db
      ai2 now2 fresh2).updatedCount = assignments.length := by
  have hinv0 : SyncInv db0
      { db := db0, nextPageId := fresh, newCount := 0, updatedCount := 0 } := by
    refine ⟨hids, hfresh, ?_, ?_⟩
    · intro k r hget t ht htp
      have hrdb0 : r ∈ db0 := buildMap_mem_val (jsMapGet_mem hget)
      have htr : t = r := nodup_pageId_inj hids ht hrdb0 htp
      rw [htr]
      exact buildExistingTasksMap_joinKey db0 (k, r) (jsMapGet_mem hget)
    · intro r hr
      exact ⟨r, hr, rfl⟩
  obtain ⟨_, _, hgood⟩ :=
    foldl_syncStep_inv_good hids assignments
      { db := db0, nextPageId := fresh, newCount := 0, updatedCount := 0 } hurl hinv0
  have hrun1 : (runTaskSync assignments db0 ai1 now1 fresh).db =
      updateAllTasksUrgency now1
        ((assignments.foldl (syncStep (buildExistingTasksMap db0) ai1 now1)
          { db := db0, nextPageId := fresh, newCount := 0, updatedCount := 0 }).db) := rfl
  have hmatch : ∀ a ∈ assignments,
      (jsMapGet (buildExistingTasksMap (runTaskSync assignments db0 ai1 now1 fresh).db)
        (toString a.id)).isSome := by
    intro a ha
    refine buildMap_isSome_of_hasKey ?_
    rw [hrun1]
    exact updateAllTasksUrgency_hasKey now1 (hgood a ha)
  have h2 := foldl_syncStep_all_matched
    (buildExistingTasksMap (runTaskSync assignments db0 ai1 now1 fresh).db) ai2 now2
    assignments
    { db := (runTaskSync assignments db0 ai1 now1 fresh).db, nextPageId := fresh2,
      newCount := 0, updatedCount := 0 }
    hmatch
  have hnew : (runTaskSync assignments (runTaskSync assignments db0 ai1 now1 fresh).db
      ai2 now2 fresh2).newCount =
      (assignments.foldl
        (syncStep (buildExistingTasksMap (runTaskSync assignments db0 ai1 now1 fresh).db)
          ai2 now2)
        { db := (runTaskSync assignments db0 ai1 now1 fresh).db, nextPageId := fresh2,
          newCount := 0, updatedCount := 0 }).newCount := rfl
  have hupd : (runTaskSync assignments (runTaskSync assignments db0 ai1 now1 fresh).db
      ai2 now2 fresh2).updatedCount =
      (assignments.foldl
        (syncStep (buildExistingTasksMap (runTaskSync assignments db0 ai1 now1 fresh).db)
          ai2 now2)
        { db := (runTaskSync assignments db0 ai1 now1 fresh).db, nextPageId := fresh2,
          newCount := 0, updatedCount := 0 }).updatedCount := rfl
  constructor
  · rw [hnew, h2.1]
  · rw [hupd, h2.2]
    dsimp only
    omega

/-- C4 witness: the amended theorem applied to the concrete one-
assignment, one-record instance. -/
theorem sync_second_run_counts_w :
    ((∀ a ∈ [a77], urlEmbedsId a) ∧
      (([doneRec].map (fun t => t.pageId)).Nodup) ∧
      (∀ t ∈ [doneRec], t.pageId < 100)) ∧
    ((runTaskSync [a77] (runTaskSync [a77] [doneRec] failAi 0 100).db
        failAi 0 100).newCount = 0 ∧
      (runTaskSync [a77] (runTaskSync [a77] [doneRec] failAi 0 100).db
        failAi 0 100).updatedCount = [a77].length) := by
  have hurl : ∀ a ∈ [a77], urlEmbedsId a := by
    intro a ha
    rw [List.mem_singleton] at ha
    subst ha
    exact ⟨"https://canvas.example.com/courses/5/assignments/77", rfl, by decide, by decide⟩
  exact ⟨⟨hurl, by decide, by decide⟩,
    sync_second_run_counts [a77] [doneRec] failAi failAi 0 0 100 100 hurl
      (by decide) (by decide)⟩

end CanvasAiPlanner
